import Mathlib

/-!
Shallow embedding of the GridBot support/resistance analysis and
grid-composition pipeline (grid_logic.py), together with theorems that
check the natural-language specification's claims against it.

Prices are modelled as exact rationals (the Python code computes with
floats; the embedding uses exact arithmetic).  Candle series are lists of
OHLC records; the timestamp and volume columns are never consulted by the
functions verified here and are omitted from the record.
-/

namespace GridBot

/-- Ascending sort, used wherever the Python code calls the builtin
sorted on a list of prices. -/
def sortQ (l : List ℚ) : List ℚ :=
  List.insertionSort (· ≤ ·) l

theorem sortQ_perm (l : List ℚ) : List.Perm (sortQ l) l :=
  List.perm_insertionSort _ l

theorem sortQ_sorted (l : List ℚ) : (sortQ l).Sorted (· ≤ ·) :=
  List.sorted_insertionSort _ l

theorem mem_sortQ {l : List ℚ} {x : ℚ} : x ∈ sortQ l ↔ x ∈ l :=
  (sortQ_perm l).mem_iff

/-- Inner loop of remove_duplicates (grid_logic.py lines 619-625): the
accumulator result starts as the singleton of the smallest price; each
subsequent level is compared with the last element appended so far and is
appended only when it is more than tolerance above it. -/
def remove_duplicates_go (tolerance : ℚ) : List ℚ → List ℚ → List ℚ
  | result, [] => result
  | result, level :: rest =>
    let last := (result.getLast?).getD 0
    if (level - last) / last > tolerance then
      remove_duplicates_go tolerance (result ++ [level]) rest
    else
      remove_duplicates_go tolerance result rest

/-- Translation of remove_duplicates (grid_logic.py lines 599-627): sort
the levels ascending, keep the first, then filter each later level
against the last kept one. -/
def remove_duplicates (levels : List ℚ) (tolerance : ℚ) : List ℚ :=
  if levels = [] then []
  else
    match sortQ levels with
    | [] => []
    | x :: xs => remove_duplicates_go tolerance [x] xs

/-- The deduplication rule exactly as the specification words it (spec
section 4.4): walk the sorted list keeping a lastKept value; keep a price
exactly when (price - lastKept) / lastKept > tolerance. -/
def dedupSpecGo (tolerance lastKept : ℚ) : List ℚ → List ℚ
  | [] => []
  | p :: rest =>
    if (p - lastKept) / lastKept > tolerance then
      p :: dedupSpecGo tolerance p rest
    else
      dedupSpecGo tolerance lastKept rest

/-- Application of the lastKept rule to an already-sorted list: the head
is kept unconditionally and seeds lastKept. -/
def dedupSorted (tolerance : ℚ) : List ℚ → List ℚ
  | [] => []
  | x :: xs => x :: dedupSpecGo tolerance x xs

/-- Specification-side deduplicator (spec section 4.4): sort ascending,
keep the first price unconditionally, then apply the lastKept rule. -/
def dedupSpec (levels : List ℚ) (tolerance : ℚ) : List ℚ :=
  dedupSorted tolerance (sortQ levels)

theorem remove_duplicates_go_eq (tolerance : ℚ) :
    ∀ (rest : List ℚ) (acc : List ℚ) (last : ℚ),
      remove_duplicates_go tolerance (acc ++ [last]) rest =
        acc ++ last :: dedupSpecGo tolerance last rest := by
  intro rest
  induction rest with
  | nil => intro acc last; simp [remove_duplicates_go, dedupSpecGo]
  | cons p rest ih =>
    intro acc last
    simp only [remove_duplicates_go, dedupSpecGo, List.getLast?_concat,
      Option.getD_some]
    by_cases h : (p - last) / last > tolerance
    · simp only [if_pos h]
      have h2 := ih (acc ++ [last]) p
      simpa using h2
    · simp only [if_neg h]
      exact ih acc last

/-- The source deduplicator computes exactly the specification's
lastKept recursion, on every input. -/
theorem remove_duplicates_eq_dedupSpec (levels : List ℚ) (tolerance : ℚ) :
    remove_duplicates levels tolerance = dedupSpec levels tolerance := by
  unfold remove_duplicates dedupSpec
  by_cases h : levels = []
  · subst h; simp [sortQ, List.insertionSort, dedupSorted]
  · simp only [if_neg h]
    cases hs : sortQ levels with
    | nil => rfl
    | cons x xs =>
      have := remove_duplicates_go_eq tolerance xs [] x
      simpa [dedupSorted] using this

/-- A second copy of a value adjacent to a first one never survives the
lastKept rule, because its relative distance to whatever lastKept holds
is the same as the first copy's (0 when the first copy was kept). -/
theorem dedupSpecGo_cons_self {t : ℚ} (ht : 0 ≤ t) (a v : ℚ) (xs : List ℚ) :
    dedupSpecGo t a (v :: v :: xs) = dedupSpecGo t a (v :: xs) := by
  by_cases h : (v - a) / a > t
  · have hv : ¬ ((v - v) / v > t) := by
      have hz : (v - v) / v = 0 := by simp
      rw [hz]; exact not_lt.mpr ht
    simp only [dedupSpecGo, if_pos h, if_neg hv]
  · simp only [dedupSpecGo, if_neg h]

theorem sorted_cons_mem_head {v : ℚ} {xs : List ℚ}
    (hs : (v :: xs).Sorted (· ≤ ·)) (hv : v ∈ xs) :
    ∃ ys, xs = v :: ys := by
  cases xs with
  | nil => cases hv
  | cons y ys =>
    refine ⟨ys, ?_⟩
    have hvy : v ≤ y := (List.sorted_cons.mp hs).1 y (by simp)
    rcases List.mem_cons.mp hv with h | h
    · rw [h]
    · have hyv : y ≤ v :=
        (List.sorted_cons.mp (List.sorted_cons.mp hs).2).1 v h
      rw [le_antisymm hvy hyv]

/-- On a sorted list the lastKept rule ignores duplicate copies of a
value entirely: its result is the same on the equality-deduplicated
list. -/
theorem dedupSpecGo_dedup {t : ℚ} (ht : 0 ≤ t) :
    ∀ (l : List ℚ), l.Sorted (· ≤ ·) →
      ∀ a, dedupSpecGo t a l = dedupSpecGo t a l.dedup := by
  intro l
  induction l with
  | nil => intro _ a; rfl
  | cons v xs ih =>
    intro hs a
    have hxs : xs.Sorted (· ≤ ·) := (List.sorted_cons.mp hs).2
    by_cases hv : v ∈ xs
    · obtain ⟨ys, hys⟩ := sorted_cons_mem_head hs hv
      rw [List.dedup_cons_of_mem hv]
      calc dedupSpecGo t a (v :: xs)
          = dedupSpecGo t a (v :: v :: ys) := by rw [hys]
        _ = dedupSpecGo t a (v :: ys) := dedupSpecGo_cons_self ht a v ys
        _ = dedupSpecGo t a xs := by rw [hys]
        _ = dedupSpecGo t a xs.dedup := ih hxs a
    · rw [List.dedup_cons_of_not_mem hv]
      by_cases h : (v - a) / a > t
      · simp only [dedupSpecGo, if_pos h, ih hxs v]
      · simp only [dedupSpecGo, if_neg h, ih hxs a]

/-- On a sorted list the whole head-seeded lastKept pass also only
depends on the equality-deduplicated list. -/
theorem dedupSorted_dedup {t : ℚ} (ht : 0 ≤ t) :
    ∀ (l : List ℚ), l.Sorted (· ≤ ·) →
      dedupSorted t l = dedupSorted t l.dedup := by
  intro l
  induction l with
  | nil => intro _; rfl
  | cons v xs ih =>
    intro hs
    have hxs : xs.Sorted (· ≤ ·) := (List.sorted_cons.mp hs).2
    by_cases hv : v ∈ xs
    · obtain ⟨ys, hys⟩ := sorted_cons_mem_head hs hv
      rw [List.dedup_cons_of_mem hv]
      calc dedupSorted t (v :: xs)
          = v :: dedupSpecGo t v xs := rfl
        _ = v :: dedupSpecGo t v (v :: ys) := by rw [hys]
        _ = v :: dedupSpecGo t v ys := by
            have hz : ¬ ((v - v) / v > t) := by
              have h0 : (v - v) / v = 0 := by simp
              rw [h0]; exact not_lt.mpr ht
            simp only [dedupSpecGo, if_neg hz]
        _ = dedupSorted t (v :: ys) := rfl
        _ = dedupSorted t xs := by rw [hys]
        _ = dedupSorted t xs.dedup := ih hxs
    · rw [List.dedup_cons_of_not_mem hv]
      show v :: dedupSpecGo t v xs = v :: dedupSpecGo t v xs.dedup
      rw [dedupSpecGo_dedup ht xs hxs v]

/-- Two price lists with the same underlying set of values sort and
equality-deduplicate to the same list. -/
theorem sortQ_dedup_eq_of_mem_iff {l1 l2 : List ℚ}
    (h : ∀ x, x ∈ l1 ↔ x ∈ l2) :
    (sortQ l1).dedup = (sortQ l2).dedup := by
  have hmem : ∀ x, x ∈ (sortQ l1).dedup ↔ x ∈ (sortQ l2).dedup := by
    intro x
    rw [List.mem_dedup, List.mem_dedup, mem_sortQ, mem_sortQ]
    exact h x
  have hperm : List.Perm (sortQ l1).dedup (sortQ l2).dedup := by
    rw [List.perm_ext_iff_of_nodup (List.nodup_dedup _) (List.nodup_dedup _)]
    exact hmem
  have h1 : (sortQ l1).dedup.Sorted (· ≤ ·) :=
    (sortQ_sorted l1).sublist (List.dedup_sublist _)
  have h2 : (sortQ l2).dedup.Sorted (· ≤ ·) :=
    (sortQ_sorted l2).sublist (List.dedup_sublist _)
  exact List.eq_of_perm_of_sorted hperm h1 h2

/-- Appending prices whose values are already present does not change the
deduplicator's output (for a nonnegative tolerance). -/
theorem remove_duplicates_append_of_subset {A B : List ℚ} {t : ℚ}
    (ht : 0 ≤ t) (hB : ∀ x ∈ B, x ∈ A) :
    remove_duplicates (A ++ B) t = remove_duplicates A t := by
  rw [remove_duplicates_eq_dedupSpec, remove_duplicates_eq_dedupSpec]
  unfold dedupSpec
  rw [dedupSorted_dedup ht _ (sortQ_sorted (A ++ B)),
      dedupSorted_dedup ht _ (sortQ_sorted A)]
  congr 1
  apply sortQ_dedup_eq_of_mem_iff
  intro x
  constructor
  · intro hx
    rcases List.mem_append.mp hx with h | h
    · exact h
    · exact hB x h
  · intro hx
    exact List.mem_append.mpr (Or.inl hx)

/-- One OHLC candle.  The timestamp and volume columns of the fetched
dataframe are never consulted by the verified functions and are omitted.
The open price is named open_ because open is a Lean keyword. -/
structure Candle where
  open_ : ℚ
  high : ℚ
  low : ℚ
  close : ℚ
deriving DecidableEq

/-- Row access df.iloc[i]; out-of-range reads (never exercised by the
verified loops) return a zero candle. -/
def nthC (df : List Candle) (i : ℕ) : Candle :=
  df.getD i ⟨0, 0, 0, 0⟩

/-- Linear-interpolation quantile of a list of values, as computed by
pandas Series.quantile with the default method: on the ascending sort s
of the n values, at position h = p*(n-1), return
s[floor h] + (h - floor h) * (s[floor h + 1] - s[floor h]). -/
def quantileQ (p : ℚ) (xs : List ℚ) : ℚ :=
  let s := sortQ xs
  let n := s.length
  if n = 0 then 0
  else
    let h : ℚ := p * ((n : ℚ) - 1)
    let i : ℕ := (⌊h⌋).toNat
    s.getD i 0 + (h - (i : ℚ)) * (s.getD (i + 1) 0 - s.getD i 0)

/-- Candle i's low is within 0.5 percent relative distance of the level
(grid_logic.py line 557). -/
def support_test (df : List Candle) (level : ℚ) (i : ℕ) : Bool :=
  decide (|(nthC df i).low - level| / level < 5 / 1000)

/-- Candle i is not the last one and the next candle's close exceeds this
candle's open (grid_logic.py line 560). -/
def support_bounce (df : List Candle) (i : ℕ) : Bool :=
  decide (i < df.length - 1 ∧ (nthC df (i + 1)).close > (nthC df i).open_)

/-- Candle i's high is within 0.5 percent relative distance of the level
(grid_logic.py line 578). -/
def resistance_test (df : List Candle) (level : ℚ) (i : ℕ) : Bool :=
  decide (|(nthC df i).high - level| / level < 5 / 1000)

/-- Candle i is not the last one and the next candle's close is below
this candle's open (grid_logic.py line 581). -/
def resistance_drop (df : List Candle) (i : ℕ) : Bool :=
  decide (i < df.length - 1 ∧ (nthC df (i + 1)).close < (nthC df i).open_)

/-- One iteration of the counter loop of validate_sr_levels: when the
test predicate holds the test counter is incremented and, when the
reaction predicate also holds, the respect counter too. -/
def count_step (p q : ℕ → Bool) (acc : ℕ × ℕ) (i : ℕ) : ℕ × ℕ :=
  if p i then (acc.1 + 1, if q i then acc.2 + 1 else acc.2) else acc

/-- The pair (test_count, respect_count) computed by the support loop of
validate_sr_levels (grid_logic.py lines 550-561): i runs over
range(1, len(df)). -/
def support_counts (df : List Candle) (level : ℚ) : ℕ × ℕ :=
  (List.range' 1 (df.length - 1)).foldl
    (count_step (support_test df level) (support_bounce df)) (0, 0)

/-- The pair (test_count, respect_count) computed by the resistance loop
of validate_sr_levels (grid_logic.py lines 571-582). -/
def resistance_counts (df : List Candle) (level : ℚ) : ℕ × ℕ :=
  (List.range' 1 (df.length - 1)).foldl
    (count_step (resistance_test df level) (resistance_drop df)) (0, 0)

/-- Keep rule for one support level (grid_logic.py lines 564-568):
tested and respected at least 60 percent of the time, or tested fewer
than 3 times while below the 10th percentile of lows. -/
def keep_support (df : List Candle) (level : ℚ) : Bool :=
  let tc := (support_counts df level).1
  let rc := (support_counts df level).2
  decide ((0 < tc ∧ ((rc : ℚ) / (tc : ℚ) ≥ 6 / 10)) ∨
          (tc < 3 ∧ level < quantileQ (1 / 10) (df.map Candle.low)))

/-- Keep rule for one resistance level (grid_logic.py lines 585-589). -/
def keep_resistance (df : List Candle) (level : ℚ) : Bool :=
  let tc := (resistance_counts df level).1
  let rc := (resistance_counts df level).2
  decide ((0 < tc ∧ ((rc : ℚ) / (tc : ℚ) ≥ 6 / 10)) ∨
          (tc < 3 ∧ level > quantileQ (9 / 10) (df.map Candle.high)))

/-- The validated support list before the non-empty fallback
(grid_logic.py lines 550-568): candidates kept by the rule, in input
order. -/
def validate_stage_supports (df : List Candle) (supports : List ℚ) : List ℚ :=
  supports.filter (keep_support df)

/-- The validated resistance list before the non-empty fallback
(grid_logic.py lines 571-589). -/
def validate_stage_resistances (df : List Candle) (resistances : List ℚ) : List ℚ :=
  resistances.filter (keep_resistance df)

/-- Translation of validate_sr_levels (grid_logic.py lines 533-597),
including the final fallback: an emptied side is replaced by the first
min(3, count) unvalidated candidates of that side. -/
def validate_sr_levels (df : List Candle) (supports resistances : List ℚ) :
    List ℚ × List ℚ :=
  let vs := validate_stage_supports df supports
  let vr := validate_stage_resistances df resistances
  (if vs = [] then supports.take (min 3 supports.length) else vs,
   if vr = [] then resistances.take (min 3 resistances.length) else vr)

/-- Tests of a support level as the claim words them: candles (all of
them, from the first) whose low is within 0.5 percent of the level. -/
def claim_tests_support (df : List Candle) (level : ℚ) : ℕ :=
  (List.range df.length).countP (fun i => support_test df level i)

/-- Respects of a support level as the claim words them: tests at a
candle i that is not the last where the next close exceeds this open. -/
def claim_respects_support (df : List Candle) (level : ℚ) : ℕ :=
  (List.range df.length).countP
    (fun i => support_test df level i && support_bounce df i)

/-- The claim's keep rule for a support level, counting every candle. -/
def claim_keep_support (df : List Candle) (level : ℚ) : Prop :=
  (0 < claim_tests_support df level ∧
     ((claim_respects_support df level : ℚ) / (claim_tests_support df level : ℚ) ≥ 6 / 10)) ∨
  (claim_tests_support df level < 3 ∧
     level < quantileQ (1 / 10) (df.map Candle.low))

instance (df : List Candle) (level : ℚ) : Decidable (claim_keep_support df level) := by
  unfold claim_keep_support; infer_instance

/-- Tests of a support level counted only over the candles after the
first one (indices 1 to n-1), matching the code's loop range. -/
def amended_tests_support (df : List Candle) (level : ℚ) : ℕ :=
  (List.range' 1 (df.length - 1)).countP (fun i => support_test df level i)

/-- Respects of a support level counted only over the candles after the
first one. -/
def amended_respects_support (df : List Candle) (level : ℚ) : ℕ :=
  (List.range' 1 (df.length - 1)).countP
    (fun i => support_test df level i && support_bounce df i)

/-- The amended keep rule for a support level: tests and respects count
only candles after the first. -/
def amended_keep_support (df : List Candle) (level : ℚ) : Prop :=
  (0 < amended_tests_support df level ∧
     ((amended_respects_support df level : ℚ) / (amended_tests_support df level : ℚ) ≥ 6 / 10)) ∨
  (amended_tests_support df level < 3 ∧
     level < quantileQ (1 / 10) (df.map Candle.low))

/-- Tests of a resistance level counted only over the candles after the
first one. -/
def amended_tests_resistance (df : List Candle) (level : ℚ) : ℕ :=
  (List.range' 1 (df.length - 1)).countP (fun i => resistance_test df level i)

/-- Respects of a resistance level counted only over the candles after
the first one. -/
def amended_respects_resistance (df : List Candle) (level : ℚ) : ℕ :=
  (List.range' 1 (df.length - 1)).countP
    (fun i => resistance_test df level i && resistance_drop df i)

/-- The amended keep rule for a resistance level. -/
def amended_keep_resistance (df : List Candle) (level : ℚ) : Prop :=
  (0 < amended_tests_resistance df level ∧
     ((amended_respects_resistance df level : ℚ) / (amended_tests_resistance df level : ℚ) ≥ 6 / 10)) ∨
  (amended_tests_resistance df level < 3 ∧
     level > quantileQ (9 / 10) (df.map Candle.high))

theorem count_step_foldl (p q : ℕ → Bool) :
    ∀ (l : List ℕ) (a b : ℕ),
      l.foldl (count_step p q) (a, b) =
        (a + l.countP p, b + l.countP (fun i => p i && q i)) := by
  intro l
  induction l with
  | nil => intro a b; simp
  | cons i l ih =>
    intro a b
    simp only [List.foldl_cons, List.countP_cons, count_step]
    by_cases hp : p i = true
    · rw [if_pos hp, ih]
      by_cases hq : q i = true <;>
        · simp only [hp, hq, Bool.and_true, Bool.and_false, if_true,
            Bool.false_eq_true, if_false, Prod.mk.injEq]
          refine ⟨by omega, by omega⟩
    · rw [if_neg hp, ih]
      simp only [Bool.not_eq_true] at hp
      simp [hp]

theorem support_counts_eq (df : List Candle) (level : ℚ) :
    support_counts df level =
      (amended_tests_support df level, amended_respects_support df level) := by
  unfold support_counts amended_tests_support amended_respects_support
  rw [count_step_foldl]
  simp

theorem resistance_counts_eq (df : List Candle) (level : ℚ) :
    resistance_counts df level =
      (amended_tests_resistance df level, amended_respects_resistance df level) := by
  unfold resistance_counts amended_tests_resistance amended_respects_resistance
  rw [count_step_foldl]
  simp

theorem keep_support_iff_amended (df : List Candle) (level : ℚ) :
    keep_support df level = true ↔ amended_keep_support df level := by
  unfold keep_support amended_keep_support
  rw [support_counts_eq]
  simp

theorem keep_resistance_iff_amended (df : List Candle) (level : ℚ) :
    keep_resistance df level = true ↔ amended_keep_resistance df level := by
  unfold keep_resistance amended_keep_resistance
  rw [resistance_counts_eq]
  simp

/-- Candle i is a support fractal for window w: its low is strictly
below the lows of the w candles on each side (grid_logic.py lines
474-481). -/
def is_support_fractal (df : List Candle) (w i : ℕ) : Bool :=
  decide (∀ j ∈ List.range' 1 w,
    (nthC df i).low < (nthC df (i - j)).low ∧
    (nthC df i).low < (nthC df (i + j)).low)

/-- Candle i is a resistance fractal for window w: its high is strictly
above the highs of the w candles on each side (grid_logic.py lines
484-491). -/
def is_resistance_fractal (df : List Candle) (w i : ℕ) : Bool :=
  decide (∀ j ∈ List.range' 1 w,
    (nthC df (i - j)).high < (nthC df i).high ∧
    (nthC df (i + j)).high < (nthC df i).high)

/-- Lows of the support fractals found while i scans [lo, hi). -/
def fractal_lows (df : List Candle) (w lo hi : ℕ) : List ℚ :=
  (List.range' lo (hi - lo)).filterMap
    (fun i => if is_support_fractal df w i then some (nthC df i).low else none)

/-- Highs of the resistance fractals found while i scans [lo, hi). -/
def fractal_highs (df : List Candle) (w lo hi : ℕ) : List ℚ :=
  (List.range' lo (hi - lo)).filterMap
    (fun i => if is_resistance_fractal df w i then some (nthC df i).high else none)

/-- Translation of find_price_fractals (grid_logic.py lines 457-531):
scan the interior candles for fractals, then (when more than w*4 candles
exist) re-scan the most recent w*10 interior candles and append those
fractals a second time, and deduplicate each side at tolerance 0.005. -/
def find_price_fractals (df : List Candle) (w : ℕ) : List ℚ × List ℚ :=
  let n := df.length
  let sf := fractal_lows df w w (n - w)
  let rf := fractal_highs df w w (n - w)
  let sf2 := if n > w * 4 then sf ++ fractal_lows df w (max w (n - w * 10)) (n - w) else sf
  let rf2 := if n > w * 4 then rf ++ fractal_highs df w (max w (n - w * 10)) (n - w) else rf
  (remove_duplicates sf2 (5 / 1000), remove_duplicates rf2 (5 / 1000))

/-- The same detector with the recency duplication removed: only the
single full interior scan feeds the deduplicator. -/
def find_price_fractals_norecent (df : List Candle) (w : ℕ) : List ℚ × List ℚ :=
  let n := df.length
  (remove_duplicates (fractal_lows df w w (n - w)) (5 / 1000),
   remove_duplicates (fractal_highs df w w (n - w)) (5 / 1000))

theorem fractal_lows_mono (df : List Candle) (w m hi : ℕ) (hm : w ≤ m) :
    ∀ x ∈ fractal_lows df w m hi, x ∈ fractal_lows df w w hi := by
  intro x hx
  unfold fractal_lows at hx ⊢
  rcases List.mem_filterMap.mp hx with ⟨i, hi1, hi2⟩
  refine List.mem_filterMap.mpr ⟨i, ?_, hi2⟩
  have h1 := List.mem_range'_1.mp hi1
  exact List.mem_range'_1.mpr (by omega)

theorem fractal_highs_mono (df : List Candle) (w m hi : ℕ) (hm : w ≤ m) :
    ∀ x ∈ fractal_highs df w m hi, x ∈ fractal_highs df w w hi := by
  intro x hx
  unfold fractal_highs at hx ⊢
  rcases List.mem_filterMap.mp hx with ⟨i, hi1, hi2⟩
  refine List.mem_filterMap.mpr ⟨i, ?_, hi2⟩
  have h1 := List.mem_range'_1.mp hi1
  exact List.mem_range'_1.mpr (by omega)

/-- The recency re-scan only appends values that the full scan already
produced, and such duplicates never change the deduplicator's output, so
the detector's result is identical with or without the duplication. -/
theorem find_price_fractals_recency_noop (df : List Candle) (w : ℕ) :
    find_price_fractals df w = find_price_fractals_norecent df w := by
  unfold find_price_fractals find_price_fractals_norecent
  by_cases hgate : df.length > w * 4
  · simp only [if_pos hgate]
    have ht : (0 : ℚ) ≤ 5 / 1000 := by norm_num
    rw [remove_duplicates_append_of_subset ht
        (fractal_lows_mono df w (max w (df.length - w * 10)) (df.length - w)
          (le_max_left _ _)),
      remove_duplicates_append_of_subset ht
        (fractal_highs_mono df w (max w (df.length - w * 10)) (df.length - w)
          (le_max_left _ _))]
  · simp only [if_neg hgate]

/-- Grid spacing type from the configuration. -/
inductive GridType where
  | Arithmetic : GridType
  | Geometric : GridType
deriving DecidableEq

/-- Index sequence produced by np.linspace(0, m-1, num, dtype=int): num
evenly spaced real positions over 0..m-1, truncated to integers (the
values are nonnegative, so truncation is the floor, which for integer
arguments is exact natural division). -/
def linspace_indices (m num : ℕ) : List ℕ :=
  if num = 0 then []
  else if num = 1 then [0]
  else (List.range num).map (fun k => k * (m - 1) / (num - 1))

/-- Translation of generate_arithmetic_grid (grid_logic.py line 193),
np.linspace(a, b, num): num points with equal spacing (b-a)/(num-1),
first point a, last point b. -/
def generate_arithmetic_grid (a b : ℚ) (num : ℕ) : List ℚ :=
  if num = 0 then []
  else if num = 1 then [a]
  else (List.range num).map (fun (k : ℕ) => a + (b - a) * (k : ℚ) / ((num : ℚ) - 1))

/-- sorted(set(l)): the ascending list of the distinct values of l. -/
def sortedSet (l : List ℚ) : List ℚ :=
  (sortQ l).dedup

/-- Synthetic grid dispatch on the grid type (grid_logic.py lines
154-161 and 170-176).  numpy's geomspace(a, b, n) computes
a*(b/a)^(k/(n-1)), which is not rational-valued, so the geometric
generator is passed in as the explicit function parameter geomGen;
theorems state the properties of geomspace they rely on (its length, its
sortedness, its bounds) as hypotheses on geomGen. -/
def synthetic_grid (geomGen : ℚ → ℚ → ℕ → List ℚ) (gt : GridType)
    (a b : ℚ) (num : ℕ) : List ℚ :=
  match gt with
  | .Arithmetic => generate_arithmetic_grid a b num
  | .Geometric => geomGen a b num

/-- Translation of GridBot.calculate_grid_levels (grid_logic.py lines
121-179) as a function of the configured bounds, grid number n, grid
type, and the bot's detected support/resistance level lists. -/
def calculate_grid_levels (geomGen : ℚ → ℚ → ℕ → List ℚ) (gt : GridType)
    (lower upper : ℚ) (n : ℕ) (supports resistances : List ℚ) : List ℚ :=
  if supports ≠ [] ∧ resistances ≠ [] then
    let fs := supports.filter (fun s => decide (lower ≤ s ∧ s ≤ upper))
    let fr := resistances.filter (fun r => decide (lower ≤ r ∧ r ≤ upper))
    let key := sortQ (fs ++ fr)
    if key.length ≥ n - 1 then
      let selected := (linspace_indices key.length (n - 1)).map
        (fun i => key.getD i 0)
      lower :: selected ++ [upper]
    else
      let seed := lower :: key ++ [upper]
      let remaining := n + 1 - seed.length
      if remaining > 0 then
        let filled := synthetic_grid geomGen gt lower upper (n + 1)
        let alllv := sortedSet (seed ++ filled)
        (linspace_indices alllv.length (n + 1)).map (fun i => alllv.getD i 0)
      else seed
  else
    synthetic_grid geomGen gt lower upper (n + 1)

/-- Order side. -/
inductive Side where
  | Buy : Side
  | Sell : Side
deriving DecidableEq

/-- One planned limit order: side, price, quantity. -/
structure OrderInstr where
  side : Side
  price : ℚ
  qty : ℚ
deriving DecidableEq

/-- Direction mode from the configuration. -/
inductive Direction where
  | Neutral : Direction
  | Long : Direction
  | Short : Direction
deriving DecidableEq

/-- The Neutral-mode pair loop of create_grid_orders (grid_logic.py
lines 233-264): for each adjacent pair of levels, a buy at the lower one
and a sell at the upper one, with quantity size/price. -/
def neutral_orders : List ℚ → ℚ → List OrderInstr
  | a :: b :: rest, size =>
    ⟨.Buy, a, size / a⟩ :: ⟨.Sell, b, size / b⟩ :: neutral_orders (b :: rest) size
  | _, _ => []

/-- Translation of create_grid_orders (grid_logic.py lines 209-301) as
the planned instruction sequence: investment = balance * pct/100 and
per-grid order size = investment / grid_number, then the direction
dispatch. -/
def create_grid_orders_plan (dir : Direction) (levels : List ℚ)
    (balance pct : ℚ) (n : ℕ) : List OrderInstr :=
  let investment := balance * (pct / 100)
  let size := investment / (n : ℚ)
  match dir with
  | .Neutral => neutral_orders levels size
  | .Long => levels.map (fun p => ⟨.Buy, p, size / p⟩)
  | .Short => levels.map (fun p => ⟨.Sell, p, size / p⟩)

/-- The claim's description of the Neutral plan: for each i in 0..n-1 a
buy at levels[i] and a sell at levels[i+1] with quantities
perGrid/price. -/
def claim_neutral_orders (levels : List ℚ) (perGrid : ℚ) (n : ℕ) :
    List OrderInstr :=
  (List.range n).flatMap
    (fun i =>
      [⟨.Buy, levels.getD i 0, perGrid / levels.getD i 0⟩,
       ⟨.Sell, levels.getD (i + 1) 0, perGrid / levels.getD (i + 1) 0⟩])

/-- One observable interaction with the exchange collaborator. -/
inductive ExAction where
  | create : OrderInstr → ExAction
  | cancel : ℕ → ExAction
deriving DecidableEq

/-- The single-side submission loop of the Long and Short modes with an
explicit response oracle (grid_logic.py lines 266-298): one create call
per level; an accepted call is recorded under its call index. -/
def run_single (side : Side) :
    List ℚ → ℚ → (ℕ → Bool) → ℕ → List ExAction × List (ℕ × OrderInstr)
  | p :: rest, size, resp, k =>
    let o : OrderInstr := ⟨side, p, size / p⟩
    let t := run_single side rest size resp (k + 1)
    (ExAction.create o :: t.1, (if resp k then [(k, o)] else []) ++ t.2)
  | _, _, _, _ => ([], [])

/-- The Neutral-mode submission loop with an explicit response oracle:
resp k tells whether the exchange accepts the k-th create_order call (a
refused call returns None and is merely skipped, grid_logic.py lines
248-249 and 263-264); an accepted call is recorded in the active-orders
map under its call index.  Returns (interaction trace, recorded active
orders). -/
def run_neutral : List ℚ → ℚ → (ℕ → Bool) → ℕ → List ExAction × List (ℕ × OrderInstr)
  | a :: b :: rest, size, resp, k =>
    let buyO : OrderInstr := ⟨.Buy, a, size / a⟩
    let sellO : OrderInstr := ⟨.Sell, b, size / b⟩
    let t := run_neutral (b :: rest) size resp (k + 2)
    (ExAction.create buyO :: ExAction.create sellO :: t.1,
     (if resp k then [(k, buyO)] else []) ++
       (if resp (k + 1) then [(k + 1, sellO)] else []) ++ t.2)
  | _, _, _, _ => ([], [])

/-- Sort levels by proximity to the current price (grid_logic.py lines
94-95). -/
def sortByDistance (p : ℚ) (l : List ℚ) : List ℚ :=
  List.insertionSort (fun a b => |p - a| ≤ |p - b|) l

/-- The pure tail of GridBot.analyze_market (grid_logic.py lines
86-117), as a function of the combined detector outputs and the fetched
current price: deduplicate at tolerance 0.005, sort by distance to the
price, keep only levels within 15 percent of it and on the correct side
of it, and replace both sides by the default 0.97/1.03 bands when either
side ends empty. -/
def analyze_market_post (allSupports allResistances : List ℚ) (price : ℚ) :
    List ℚ × List ℚ :=
  let fs0 := remove_duplicates allSupports (5 / 1000)
  let fr0 := remove_duplicates allResistances (5 / 1000)
  let fs1 := sortByDistance price fs0
  let fr1 := sortByDistance price fr0
  let maxDistance := price * (15 / 100)
  let fs2 := fs1.filter (fun s => decide (price - s ≤ maxDistance))
  let fr2 := fr1.filter (fun r => decide (r - price ≤ maxDistance))
  let fs3 := fs2.filter (fun s => decide (s < price))
  let fr3 := fr2.filter (fun r => decide (price < r))
  if fs3.length > 0 ∧ fr3.length > 0 then (fs3, fr3)
  else ([price * (97 / 100)], [price * (103 / 100)])

theorem linspace_indices_length (m num : ℕ) :
    (linspace_indices m num).length = num := by
  unfold linspace_indices
  by_cases h0 : num = 0
  · simp [h0]
  · by_cases h1 : num = 1
    · simp [h0, h1]
    · simp [h0, h1]

theorem linspace_indices_lt {m num : ℕ} (hm : 1 ≤ m) :
    ∀ i ∈ linspace_indices m num, i < m := by
  intro i hi
  unfold linspace_indices at hi
  by_cases h0 : num = 0
  · simp [h0] at hi
  · by_cases h1 : num = 1
    · simp [h0, h1] at hi; omega
    · simp only [h0, h1, if_false] at hi
      rcases List.mem_map.mp hi with ⟨k, hk, rfl⟩
      have hk2 : k ≤ num - 1 := by
        have := List.mem_range.mp hk; omega
      have hle : k * (m - 1) / (num - 1) ≤ (num - 1) * (m - 1) / (num - 1) :=
        Nat.div_le_div_right (Nat.mul_le_mul_right _ hk2)
      rw [Nat.mul_div_cancel_left _ (by omega : 0 < num - 1)] at hle
      omega

theorem linspace_indices_sorted (m num : ℕ) :
    (linspace_indices m num).Sorted (· ≤ ·) := by
  unfold linspace_indices
  by_cases h0 : num = 0
  · simp [h0]
  · by_cases h1 : num = 1
    · simp [h0, h1]
    · simp only [h0, h1, if_false]
      refine List.Pairwise.map _ ?_ (List.pairwise_lt_range num)
      intro a b hab
      exact Nat.div_le_div_right (Nat.mul_le_mul_right _ (le_of_lt hab))

theorem sorted_getD_mono {l : List ℚ} (hl : l.Sorted (· ≤ ·)) {i j : ℕ}
    (hij : i ≤ j) (hj : j < l.length) : l.getD i 0 ≤ l.getD j 0 := by
  have hi : i < l.length := lt_of_le_of_lt hij hj
  rw [List.getD_eq_getElem?_getD, List.getD_eq_getElem?_getD,
      List.getElem?_eq_getElem hi, List.getElem?_eq_getElem hj]
  simp only [Option.getD_some]
  rcases lt_or_eq_of_le hij with h | h
  · exact List.pairwise_iff_getElem.mp hl i j hi hj h
  · subst h; exact le_refl _

theorem map_getD_sorted {l : List ℚ} {is : List ℕ} (hl : l.Sorted (· ≤ ·))
    (his : is.Sorted (· ≤ ·)) (hb : ∀ i ∈ is, i < l.length) :
    (is.map (fun i => l.getD i 0)).Sorted (· ≤ ·) := by
  induction is with
  | nil => simp
  | cons i rest ih =>
    rw [List.map_cons]
    rw [List.sorted_cons] at his
    rw [List.sorted_cons]
    constructor
    · intro x hx
      rcases List.mem_map.mp hx with ⟨j, hj, rfl⟩
      exact sorted_getD_mono hl (his.1 j hj) (hb j (List.mem_cons_of_mem _ hj))
    · exact ih his.2 (fun j hj => hb j (List.mem_cons_of_mem _ hj))

theorem map_getD_mem {l : List ℚ} {is : List ℕ} (hb : ∀ i ∈ is, i < l.length) :
    ∀ x ∈ is.map (fun i => l.getD i 0), x ∈ l := by
  intro x hx
  rcases List.mem_map.mp hx with ⟨j, hj, rfl⟩
  have hjl := hb j hj
  rw [List.getD_eq_getElem?_getD, List.getElem?_eq_getElem hjl]
  simp only [Option.getD_some]
  exact List.getElem_mem _

theorem generate_arithmetic_grid_length (a b : ℚ) (num : ℕ) :
    (generate_arithmetic_grid a b num).length = num := by
  unfold generate_arithmetic_grid
  by_cases h0 : num = 0
  · simp [h0]
  · by_cases h1 : num = 1
    · simp [h0, h1]
    · simp [h0, h1]

theorem generate_arithmetic_grid_bounds {a b : ℚ} (hab : a ≤ b) (num : ℕ) :
    ∀ x ∈ generate_arithmetic_grid a b num, a ≤ x ∧ x ≤ b := by
  intro x hx
  unfold generate_arithmetic_grid at hx
  by_cases h0 : num = 0
  · simp [h0] at hx
  · by_cases h1 : num = 1
    · simp [h0, h1] at hx
      rw [hx]
      exact ⟨le_refl a, hab⟩
    · simp only [h0, h1, if_false] at hx
      rcases List.mem_map.mp hx with ⟨k, hk, rfl⟩
      have hk2 : (k : ℚ) ≤ (num : ℚ) - 1 := by
        have hkn := List.mem_range.mp hk
        have hkn1 : k + 1 ≤ num := hkn
        have hkq : (k : ℚ) + 1 ≤ (num : ℚ) := by exact_mod_cast hkn1
        linarith
      have hnum : (0 : ℚ) < (num : ℚ) - 1 := by
        have h2 : 2 ≤ num := by omega
        have h2q : (2 : ℚ) ≤ (num : ℚ) := by exact_mod_cast h2
        linarith
      have hk0 : (0 : ℚ) ≤ (k : ℚ) := Nat.cast_nonneg k
      constructor
      · have hnn : 0 ≤ (b - a) * (k : ℚ) / ((num : ℚ) - 1) :=
          div_nonneg (mul_nonneg (by linarith) hk0) (by linarith)
        linarith
      · have h3 : (b - a) * (k : ℚ) ≤ (b - a) * ((num : ℚ) - 1) :=
          mul_le_mul_of_nonneg_left hk2 (by linarith)
        have h4 : (b - a) * (k : ℚ) / ((num : ℚ) - 1) ≤ b - a := by
          rw [div_le_iff₀ hnum]; linarith
        linarith

theorem generate_arithmetic_grid_sorted {a b : ℚ} (hab : a ≤ b) (num : ℕ) :
    (generate_arithmetic_grid a b num).Sorted (· ≤ ·) := by
  unfold generate_arithmetic_grid
  by_cases h0 : num = 0
  · simp [h0]
  · by_cases h1 : num = 1
    · simp [h0, h1]
    · simp only [h0, h1, if_false]
      refine List.Pairwise.map _ ?_ (List.pairwise_lt_range num)
      intro k1 k2 hk
      have hnum : (0 : ℚ) < (num : ℚ) - 1 := by
        have h2 : 2 ≤ num := by omega
        have h2q : (2 : ℚ) ≤ (num : ℚ) := by exact_mod_cast h2
        linarith
      have hkq : (k1 : ℚ) ≤ (k2 : ℚ) := by exact_mod_cast le_of_lt hk
      have h3 : (b - a) * (k1 : ℚ) ≤ (b - a) * (k2 : ℚ) :=
        mul_le_mul_of_nonneg_left hkq (by linarith)
      have h4 : (b - a) * (k1 : ℚ) / ((num : ℚ) - 1) ≤
          (b - a) * (k2 : ℚ) / ((num : ℚ) - 1) :=
        (div_le_div_iff_of_pos_right hnum).mpr h3
      linarith

theorem sortedSet_sorted (l : List ℚ) : (sortedSet l).Sorted (· ≤ ·) :=
  (sortQ_sorted l).sublist (List.dedup_sublist _)

theorem mem_sortedSet {l : List ℚ} {x : ℚ} : x ∈ sortedSet l ↔ x ∈ l := by
  unfold sortedSet
  rw [List.mem_dedup, mem_sortQ]

theorem synthetic_grid_length {geomGen : ℚ → ℚ → ℕ → List ℚ} {a b : ℚ}
    {num : ℕ} (gt : GridType) (hg : (geomGen a b num).length = num) :
    (synthetic_grid geomGen gt a b num).length = num := by
  cases gt with
  | Arithmetic => exact generate_arithmetic_grid_length a b num
  | Geometric => exact hg

theorem synthetic_grid_bounds {geomGen : ℚ → ℚ → ℕ → List ℚ} {a b : ℚ}
    {num : ℕ} (gt : GridType) (hab : a ≤ b)
    (hg : ∀ x ∈ geomGen a b num, a ≤ x ∧ x ≤ b) :
    ∀ x ∈ synthetic_grid geomGen gt a b num, a ≤ x ∧ x ≤ b := by
  cases gt with
  | Arithmetic => exact generate_arithmetic_grid_bounds hab num
  | Geometric => exact hg

theorem synthetic_grid_sorted {geomGen : ℚ → ℚ → ℕ → List ℚ} {a b : ℚ}
    {num : ℕ} (gt : GridType) (hab : a ≤ b)
    (hg : (geomGen a b num).Sorted (· ≤ ·)) :
    (synthetic_grid geomGen gt a b num).Sorted (· ≤ ·) := by
  cases gt with
  | Arithmetic => exact generate_arithmetic_grid_sorted hab num
  | Geometric => exact hg

/-- C1: for every grid configuration with 0 < lowerBound < upperBound
and integer n >= 1, and for every pair of (possibly empty) support and
resistance level lists, calculate_grid_levels returns a list of exactly
n+1 price levels, in every one of its branches.  The geometric generator
is constrained only by numpy geomspace's guaranteed output length. -/
theorem claim_C1_grid_length (geomGen : ℚ → ℚ → ℕ → List ℚ) (gt : GridType)
    (lower upper : ℚ) (n : ℕ) (S R : List ℚ)
    (hl : 0 < lower) (hu : lower < upper) (hn : 1 ≤ n)
    (hg : (geomGen lower upper (n + 1)).length = n + 1) :
    (calculate_grid_levels geomGen gt lower upper n S R).length = n + 1 := by
  simp only [calculate_grid_levels]
  split_ifs with h1 h2 h3
  · simp only [List.length_cons, List.length_append, List.length_map,
      linspace_indices_length, List.length_singleton, List.length_nil]
    omega
  · simp only [List.length_map, linspace_indices_length]
  · exfalso
    simp only [List.length_cons, List.length_append, List.length_singleton,
      List.length_nil] at h3
    omega
  · exact synthetic_grid_length gt hg

/-- Witness for C1 at a concrete configuration. -/
theorem claim_C1_grid_length_witness :
    (calculate_grid_levels (fun _ _ k => List.replicate k (0 : ℚ)) .Geometric
        10 100 2 [50] [60]).length = 2 + 1 :=
  claim_C1_grid_length (fun _ _ k => List.replicate k (0 : ℚ)) .Geometric
    10 100 2 [50] [60] (by norm_num) (by norm_num) (by norm_num) (by simp)

theorem sorted_append_iff {l1 l2 : List ℚ} :
    (l1 ++ l2).Sorted (· ≤ ·) ↔
      l1.Sorted (· ≤ ·) ∧ l2.Sorted (· ≤ ·) ∧ ∀ a ∈ l1, ∀ b ∈ l2, a ≤ b :=
  List.pairwise_append

/-- C2 counterexample: with bounds 10 < 100, n = 3, support list [50]
and resistance list [50] (the claim quantifies over every pair of
lists), the key-level branch selects the value 50 twice and returns
[10, 50, 50, 100], which is not strictly increasing. -/
theorem claim_C2_counterexample :
    (0 : ℚ) < 10 ∧ (10 : ℚ) < 100 ∧ (1 : ℕ) ≤ 3 ∧
      calculate_grid_levels generate_arithmetic_grid .Arithmetic 10 100 3
          [50] [50] = [10, 50, 50, 100] ∧
      ¬ (calculate_grid_levels generate_arithmetic_grid .Arithmetic 10 100 3
          [50] [50]).Pairwise (· < ·) :=
  ⟨by norm_num, by norm_num, by norm_num, by decide, by decide⟩

/-- C2 (amended): the returned list is sorted in nondecreasing order and
every element lies within [lowerBound, upperBound]; strict increase can
fail in the key-level branch when a selected key level repeats a value
or equals a bound.  The geometric generator is constrained by numpy
geomspace's guaranteed sortedness and bounds. -/
theorem claim_C2_grid_sorted_bounds (geomGen : ℚ → ℚ → ℕ → List ℚ)
    (gt : GridType) (lower upper : ℚ) (n : ℕ) (S R : List ℚ)
    (hl : 0 < lower) (hu : lower < upper) (hn : 1 ≤ n)
    (hgs : (geomGen lower upper (n + 1)).Sorted (· ≤ ·))
    (hgb : ∀ x ∈ geomGen lower upper (n + 1), lower ≤ x ∧ x ≤ upper) :
    (calculate_grid_levels geomGen gt lower upper n S R).Sorted (· ≤ ·) ∧
      ∀ x ∈ calculate_grid_levels geomGen gt lower upper n S R,
        lower ≤ x ∧ x ≤ upper := by
  have hab : lower ≤ upper := le_of_lt hu
  simp only [calculate_grid_levels]
  split_ifs with h1 h2 h3
  · -- enough key levels: lower :: selected ++ [upper]
    have hkey_sorted := sortQ_sorted
      (S.filter (fun s => decide (lower ≤ s ∧ s ≤ upper)) ++
       R.filter (fun r => decide (lower ≤ r ∧ r ≤ upper)))
    have hkey_bounds : ∀ x ∈ sortQ
        (S.filter (fun s => decide (lower ≤ s ∧ s ≤ upper)) ++
         R.filter (fun r => decide (lower ≤ r ∧ r ≤ upper))),
        lower ≤ x ∧ x ≤ upper := by
      intro x hx
      rw [mem_sortQ] at hx
      rcases List.mem_append.mp hx with h | h
      · have := (List.mem_filter.mp h).2
        simpa using this
      · have := (List.mem_filter.mp h).2
        simpa using this
    have hsel : (∀ x ∈ (linspace_indices
          (sortQ (S.filter (fun s => decide (lower ≤ s ∧ s ≤ upper)) ++
            R.filter (fun r => decide (lower ≤ r ∧ r ≤ upper)))).length
          (n - 1)).map
          (fun i => (sortQ (S.filter (fun s => decide (lower ≤ s ∧ s ≤ upper)) ++
            R.filter (fun r => decide (lower ≤ r ∧ r ≤ upper)))).getD i 0),
          lower ≤ x ∧ x ≤ upper) ∧
        ((linspace_indices
          (sortQ (S.filter (fun s => decide (lower ≤ s ∧ s ≤ upper)) ++
            R.filter (fun r => decide (lower ≤ r ∧ r ≤ upper)))).length
          (n - 1)).map
          (fun i => (sortQ (S.filter (fun s => decide (lower ≤ s ∧ s ≤ upper)) ++
            R.filter (fun r => decide (lower ≤ r ∧ r ≤ upper)))).getD i 0)).Sorted
          (· ≤ ·) := by
      by_cases hm : 1 ≤ (sortQ (S.filter (fun s => decide (lower ≤ s ∧ s ≤ upper)) ++
          R.filter (fun r => decide (lower ≤ r ∧ r ≤ upper)))).length
      · constructor
        · intro x hx
          exact hkey_bounds x (map_getD_mem (linspace_indices_lt hm) x hx)
        · exact map_getD_sorted hkey_sorted (linspace_indices_sorted _ _)
            (linspace_indices_lt hm)
      · have hz : (sortQ (S.filter (fun s => decide (lower ≤ s ∧ s ≤ upper)) ++
            R.filter (fun r => decide (lower ≤ r ∧ r ≤ upper)))).length = 0 := by
          omega
        have hn1 : n - 1 = 0 := by omega
        rw [hn1]
        simp [linspace_indices]
    constructor
    · rw [sorted_append_iff]
      refine ⟨?_, List.sorted_singleton _, ?_⟩
      · rw [List.sorted_cons]
        exact ⟨fun b hb => (hsel.1 b hb).1, hsel.2⟩
      · intro a ha b hb
        have hbu : b = upper := by simpa using hb
        rw [hbu]
        rcases List.mem_cons.mp ha with h | h
        · rw [h]; exact hab
        · exact (hsel.1 a h).2
    · intro x hx
      rcases List.mem_append.mp hx with h | h
      · rcases List.mem_cons.mp h with h2 | h2
        · rw [h2]; exact ⟨le_refl _, hab⟩
        · exact hsel.1 x h2
      · have : x = upper := by simpa using h
        rw [this]; exact ⟨hab, le_refl _⟩
  · -- synthetic fill branch: subsample of sorted distinct union
    have halls := sortedSet_sorted
      ((lower :: sortQ (S.filter (fun s => decide (lower ≤ s ∧ s ≤ upper)) ++
          R.filter (fun r => decide (lower ≤ r ∧ r ≤ upper))) ++ [upper]) ++
        synthetic_grid geomGen gt lower upper (n + 1))
    have hallb : ∀ x ∈ sortedSet
        ((lower :: sortQ (S.filter (fun s => decide (lower ≤ s ∧ s ≤ upper)) ++
            R.filter (fun r => decide (lower ≤ r ∧ r ≤ upper))) ++ [upper]) ++
          synthetic_grid geomGen gt lower upper (n + 1)),
        lower ≤ x ∧ x ≤ upper := by
      intro x hx
      rw [mem_sortedSet] at hx
      rcases List.mem_append.mp hx with h | h
      · rcases List.mem_cons.mp h with h2 | h2
        · rw [h2]; exact ⟨le_refl _, hab⟩
        · rcases List.mem_append.mp h2 with h3 | h3
          · have hf := mem_sortQ.mp h3
            rcases List.mem_append.mp hf with h4 | h4
            · have := (List.mem_filter.mp h4).2
              simpa using this
            · have := (List.mem_filter.mp h4).2
              simpa using this
          · have : x = upper := by simpa using h3
            rw [this]; exact ⟨hab, le_refl _⟩
      · exact synthetic_grid_bounds gt hab hgb x h
    have hm : 1 ≤ (sortedSet
        ((lower :: sortQ (S.filter (fun s => decide (lower ≤ s ∧ s ≤ upper)) ++
            R.filter (fun r => decide (lower ≤ r ∧ r ≤ upper))) ++ [upper]) ++
          synthetic_grid geomGen gt lower upper (n + 1))).length := by
      have hmem : lower ∈ sortedSet
          ((lower :: sortQ (S.filter (fun s => decide (lower ≤ s ∧ s ≤ upper)) ++
              R.filter (fun r => decide (lower ≤ r ∧ r ≤ upper))) ++ [upper]) ++
            synthetic_grid geomGen gt lower upper (n + 1)) := by
        rw [mem_sortedSet]
        exact List.mem_append.mpr (Or.inl (List.mem_cons_self _ _))
      exact List.length_pos_of_mem hmem
    constructor
    · exact map_getD_sorted halls (linspace_indices_sorted _ _)
        (linspace_indices_lt hm)
    · intro x hx
      exact hallb x (map_getD_mem (linspace_indices_lt hm) x hx)
  · -- unreachable: too few key levels always leaves remaining > 0
    exfalso
    simp only [List.length_cons, List.length_append, List.length_singleton,
      List.length_nil] at h3
    omega
  · exact ⟨synthetic_grid_sorted gt hab hgs, synthetic_grid_bounds gt hab hgb⟩

/-- Witness for the amended C2 at a concrete configuration. -/
theorem claim_C2_grid_sorted_bounds_witness :
    (calculate_grid_levels (fun _ _ _ => ([] : List ℚ)) .Geometric 10 100 2
        [50] [60]).Sorted (· ≤ ·) ∧
      ∀ x ∈ calculate_grid_levels (fun _ _ _ => ([] : List ℚ)) .Geometric
        10 100 2 [50] [60], (10 : ℚ) ≤ x ∧ x ≤ 100 :=
  claim_C2_grid_sorted_bounds (fun _ _ _ => ([] : List ℚ)) .Geometric 10 100 2
    [50] [60] (by norm_num) (by norm_num) (by norm_num) (by simp)
    (by simp)

/-- C3 evidence: the code never validates the configured bounds; with
inverted bounds lower=20 > upper=10 (and no detected levels) the
composer still runs and emits the decreasing grid [20, 15, 10] instead
of rejecting the configuration before composition. -/
theorem claim_C3_no_bound_rejection :
    calculate_grid_levels generate_arithmetic_grid .Arithmetic 20 10 2 [] [] =
      [20, 15, 10] := by
  simp only [calculate_grid_levels, synthetic_grid, generate_arithmetic_grid]
  norm_num [List.range_succ]

/-- C5: for every non-empty price list and every tolerance the
deduplicator sorts ascending, keeps the first (smallest) price
unconditionally, and keeps each later price exactly when its relative
distance to the last kept one exceeds the tolerance — the dedupSpec
recursion taken verbatim from the specification. -/
theorem claim_C5_dedup (levels : List ℚ) (tolerance : ℚ) (h : levels ≠ []) :
    remove_duplicates levels tolerance = dedupSpec levels tolerance :=
  remove_duplicates_eq_dedupSpec levels tolerance

/-- Witness for C5 on the specification's own example:
dedup([100, 100.2, 100.4, 105], 0.005) = [100, 105]. -/
theorem claim_C5_dedup_witness :
    remove_duplicates [100, 501 / 5, 502 / 5, 105] (1 / 200) =
        dedupSpec [100, 501 / 5, 502 / 5, 105] (1 / 200) ∧
      dedupSpec [100, 501 / 5, 502 / 5, 105] (1 / 200) = [100, 105] :=
  ⟨claim_C5_dedup [100, 501 / 5, 502 / 5, 105] (1 / 200) (by decide),
   by norm_num [dedupSpec, dedupSorted, dedupSpecGo, sortQ,
     List.insertionSort, List.orderedInsert]⟩

/-- C8 (amended): the fractal detector does re-scan the most recent
w*10 interior candles and append those fractals a second time, but the
duplication has no effect: the appended values are exact copies of
values the full scan already produced, and such copies never survive
the equality-sensitive one-pass deduplication, so the returned lists
are identical with and without the duplication, on every series. -/
theorem claim_C8_recency_noop (df : List Candle) (w : ℕ) :
    find_price_fractals df w = find_price_fractals_norecent df w :=
  find_price_fractals_recency_noop df w

/-- C8 counterexample to the claimed existence: no candle series (and no
window size) makes the recency duplication change the detector's
returned support or resistance lists. -/
theorem claim_C8_counterexample :
    ¬ ∃ (df : List Candle) (w : ℕ),
        find_price_fractals df w ≠ find_price_fractals_norecent df w := by
  intro h
  rcases h with ⟨df, w, hne⟩
  exact hne (find_price_fractals_recency_noop df w)

/-- C9: a non-empty candidate side never validates to an empty side:
when the keep rule retains nothing on a side, the first min(3, count)
unvalidated candidates of that side are returned in input order. -/
theorem claim_C9_fallback (df : List Candle) (supports resistances : List ℚ)
    (hS : supports ≠ []) (hR : resistances ≠ []) :
    (validate_sr_levels df supports resistances).1 ≠ [] ∧
      (validate_sr_levels df supports resistances).2 ≠ [] ∧
      (validate_stage_supports df supports = [] →
        (validate_sr_levels df supports resistances).1 =
          supports.take (min 3 supports.length)) ∧
      (validate_stage_resistances df resistances = [] →
        (validate_sr_levels df supports resistances).2 =
          resistances.take (min 3 resistances.length)) := by
  have htS : supports.take (min 3 supports.length) ≠ [] := by
    have h1 : 0 < supports.length := List.length_pos.mpr hS
    have h2 : (supports.take (min 3 supports.length)).length =
        min (min 3 supports.length) supports.length := List.length_take _ _
    intro hcon
    rw [hcon] at h2
    simp at h2
    omega
  have htR : resistances.take (min 3 resistances.length) ≠ [] := by
    have h1 : 0 < resistances.length := List.length_pos.mpr hR
    have h2 : (resistances.take (min 3 resistances.length)).length =
        min (min 3 resistances.length) resistances.length := List.length_take _ _
    intro hcon
    rw [hcon] at h2
    simp at h2
    omega
  unfold validate_sr_levels
  by_cases hvs : validate_stage_supports df supports = [] <;>
    by_cases hvr : validate_stage_resistances df resistances = [] <;>
      simp [hvs, hvr, htS, htR]

/-- Witness for C9 at a concrete input (both candidate sides are dropped
by the rule on the empty series, so the fallback fires on each side). -/
theorem claim_C9_fallback_witness :
    (validate_sr_levels [] [100] [50]).1 ≠ [] ∧
      (validate_sr_levels [] [100] [50]).2 ≠ [] ∧
      (validate_stage_supports [] [100] = [] →
        (validate_sr_levels [] [100] [50]).1 =
          [100].take (min 3 ([100] : List ℚ).length)) ∧
      (validate_stage_resistances [] [50] = [] →
        (validate_sr_levels [] [100] [50]).2 =
          [50].take (min 3 ([50] : List ℚ).length)) :=
  claim_C9_fallback [] [100] [50] (by decide) (by decide)

/-- C10: whenever the market-analysis tail runs on any combined detector
outputs with a fetched current price p > 0, every support it returns is
strictly below p and at most 15 percent below it, and every resistance
strictly above p and at most 15 percent above it; the default
0.97p/1.03p bands used when a side empties also satisfy this. -/
theorem claim_C10_analysis_range (allS allR : List ℚ) (p : ℚ) (hp : 0 < p) :
    (∀ s ∈ (analyze_market_post allS allR p).1,
        s < p ∧ p - s ≤ (15 / 100) * p) ∧
      ∀ r ∈ (analyze_market_post allS allR p).2,
        p < r ∧ r - p ≤ (15 / 100) * p := by
  simp only [analyze_market_post]
  split_ifs with h
  · constructor
    · intro s hs
      have h1 := List.mem_filter.mp hs
      have h2 := List.mem_filter.mp h1.1
      have hlt : s < p := by
        have := h1.2; simp at this; exact this
      have hdist : p - s ≤ p * (15 / 100) := by
        have := h2.2; simp at this; linarith
      exact ⟨hlt, by linarith⟩
    · intro r hr
      have h1 := List.mem_filter.mp hr
      have h2 := List.mem_filter.mp h1.1
      have hlt : p < r := by
        have := h1.2; simp at this; exact this
      have hdist : r - p ≤ p * (15 / 100) := by
        have := h2.2; simp at this; linarith
      exact ⟨hlt, by linarith⟩
  · constructor
    · intro s hs
      have hs97 : s = p * (97 / 100) := by simpa using hs
      rw [hs97]
      constructor <;> nlinarith
    · intro r hr
      have hr103 : r = p * (103 / 100) := by simpa using hr
      rw [hr103]
      constructor <;> nlinarith

/-- Witness for C10 at a concrete price and detector output. -/
theorem claim_C10_analysis_range_witness :
    (∀ s ∈ (analyze_market_post [99] [101] 100).1,
        s < 100 ∧ 100 - s ≤ (15 / 100) * 100) ∧
      ∀ r ∈ (analyze_market_post [99] [101] 100).2,
        100 < r ∧ r - 100 ≤ (15 / 100) * 100 :=
  claim_C10_analysis_range [99] [101] 100 (by norm_num)

theorem claim_neutral_orders_cons (a : ℚ) (tl : List ℚ) (s : ℚ) (m : ℕ) :
    claim_neutral_orders (a :: tl) s (m + 1) =
      ⟨.Buy, a, s / a⟩ :: ⟨.Sell, tl.getD 0 0, s / tl.getD 0 0⟩ ::
        claim_neutral_orders tl s m := by
  unfold claim_neutral_orders
  rw [List.range_succ_eq_map]
  rw [List.flatMap_cons, List.flatMap_map]
  simp [Function.comp_def]

theorem neutral_orders_eq_claim :
    ∀ (n : ℕ) (levels : List ℚ) (size : ℚ), levels.length = n + 1 →
      neutral_orders levels size = claim_neutral_orders levels size n := by
  intro n
  induction n with
  | zero =>
    intro levels size h
    match levels, h with
    | [a], _ => simp [neutral_orders, claim_neutral_orders]
  | succ m ih =>
    intro levels size h
    match levels, h with
    | a :: b :: rest, h =>
      have h2 : (b :: rest).length = m + 1 := by
        simpa using h
      rw [claim_neutral_orders_cons]
      show (⟨.Buy, a, size / a⟩ : OrderInstr) :: ⟨.Sell, b, size / b⟩ ::
          neutral_orders (b :: rest) size = _
      rw [ih (b :: rest) size h2]
      simp

theorem neutral_orders_length :
    ∀ (levels : List ℚ) (size : ℚ),
      (neutral_orders levels size).length = 2 * (levels.length - 1) := by
  intro levels
  induction levels with
  | nil => intro size; simp [neutral_orders]
  | cons a tl ih =>
    intro size
    cases tl with
    | nil => simp [neutral_orders]
    | cons b rest =>
      show ((⟨.Buy, a, size / a⟩ : OrderInstr) :: ⟨.Sell, b, size / b⟩ ::
        neutral_orders (b :: rest) size).length = _
      have := ih size
      simp only [List.length_cons] at this ⊢
      omega

/-- C6: in Neutral mode, planning over n+1 levels with per-grid size
perGrid = balance * pct/100 / n emits exactly 2n instructions: for each
i in 0..n-1 a Buy at levels[i] with quantity perGrid/levels[i] followed
by a Sell at levels[i+1] with quantity perGrid/levels[i+1]. -/
theorem claim_C6_neutral_plan (levels : List ℚ) (balance pct : ℚ) (n : ℕ)
    (hlen : levels.length = n + 1) :
    create_grid_orders_plan .Neutral levels balance pct n =
        claim_neutral_orders levels (balance * (pct / 100) / (n : ℚ)) n ∧
      (create_grid_orders_plan .Neutral levels balance pct n).length = 2 * n := by
  constructor
  · exact neutral_orders_eq_claim n levels _ hlen
  · show (neutral_orders levels _).length = 2 * n
    rw [neutral_orders_length, hlen]
    omega

/-- Witness for C6 on the specification's example: levels [10, 20, 30],
n = 2, per-grid size 100 (balance 200, investment 100 percent), with two
distinct instructions at price 20. -/
theorem claim_C6_neutral_plan_witness :
    (create_grid_orders_plan .Neutral [10, 20, 30] 200 100 2 =
        claim_neutral_orders [10, 20, 30] (200 * (100 / 100) / (2 : ℚ)) 2 ∧
      (create_grid_orders_plan .Neutral [10, 20, 30] 200 100 2).length = 2 * 2) ∧
      create_grid_orders_plan .Neutral [10, 20, 30] 200 100 2 =
        [⟨.Buy, 10, 10⟩, ⟨.Sell, 20, 5⟩, ⟨.Buy, 20, 5⟩, ⟨.Sell, 30, 10 / 3⟩] :=
  ⟨claim_C6_neutral_plan [10, 20, 30] 200 100 2 (by decide),
   by norm_num [create_grid_orders_plan, neutral_orders]⟩

theorem run_neutral_spec (size : ℚ) (resp : ℕ → Bool) :
    ∀ (levels : List ℚ) (k : ℕ),
      (run_neutral levels size resp k).1 =
          (neutral_orders levels size).map ExAction.create ∧
        (run_neutral levels size resp k).2 =
          (List.enumFrom k (neutral_orders levels size)).filter
            (fun p => resp p.1) := by
  intro levels
  induction levels with
  | nil => intro k; simp [run_neutral, neutral_orders]
  | cons a tl ih =>
    intro k
    cases tl with
    | nil => simp [run_neutral, neutral_orders]
    | cons b rest =>
      have ihk := ih (k + 2)
      constructor
      · show ExAction.create _ :: ExAction.create _ ::
            (run_neutral (b :: rest) size resp (k + 2)).1 = _
        rw [ihk.1]
        rfl
      · show (if resp k then [(k, (⟨.Buy, a, size / a⟩ : OrderInstr))] else []) ++
            (if resp (k + 1) then [(k + 1, (⟨.Sell, b, size / b⟩ : OrderInstr))] else []) ++
            (run_neutral (b :: rest) size resp (k + 2)).2 = _
        rw [ihk.2]
        show _ = (List.enumFrom k (⟨.Buy, a, size / a⟩ ::
          (⟨.Sell, b, size / b⟩ : OrderInstr) ::
            neutral_orders (b :: rest) size)).filter (fun p => resp p.1)
        rw [List.enumFrom_cons, List.enumFrom_cons, List.filter_cons,
          List.filter_cons]
        by_cases hk : resp k <;> by_cases hk1 : resp (k + 1) <;>
          simp [hk, hk1]

theorem run_single_spec (side : Side) (size : ℚ) (resp : ℕ → Bool) :
    ∀ (levels : List ℚ) (k : ℕ),
      (run_single side levels size resp k).1 =
          (levels.map (fun p => (⟨side, p, size / p⟩ : OrderInstr))).map
            ExAction.create ∧
        (run_single side levels size resp k).2 =
          (List.enumFrom k
            (levels.map (fun p => (⟨side, p, size / p⟩ : OrderInstr)))).filter
            (fun p => resp p.1) := by
  intro levels
  induction levels with
  | nil => intro k; simp [run_single]
  | cons p rest ih =>
    intro k
    have ihk := ih (k + 1)
    constructor
    · show ExAction.create _ :: (run_single side rest size resp (k + 1)).1 = _
      rw [ihk.1]
      rfl
    · show (if resp k then [(k, (⟨side, p, size / p⟩ : OrderInstr))] else []) ++
          (run_single side rest size resp (k + 1)).2 = _
      rw [ihk.2, List.map_cons, List.enumFrom_cons, List.filter_cons]
      by_cases hk : resp k <;> simp [hk]

/-- C7: order submissions are independent of the per-order responses, in
every direction mode: the interaction trace is exactly one create call
per planned instruction (same prices, sides and quantities, no cancel
and no resubmission), the same for any two response oracles, and the
recorded active-order set is exactly the accepted calls paired with
their instructions — a rejected call is only absent from that set. -/
theorem claim_C7_independent_submissions (levels : List ℚ) (size : ℚ)
    (resp resp2 : ℕ → Bool) :
    ((run_neutral levels size resp 0).1 =
        (neutral_orders levels size).map ExAction.create ∧
      (run_neutral levels size resp 0).1 =
        (run_neutral levels size resp2 0).1 ∧
      (run_neutral levels size resp 0).2 =
        (neutral_orders levels size).enum.filter (fun p => resp p.1)) ∧
      ∀ side : Side,
        (run_single side levels size resp 0).1 =
            ((levels.map (fun p => (⟨side, p, size / p⟩ : OrderInstr)))).map
              ExAction.create ∧
          (run_single side levels size resp 0).1 =
            (run_single side levels size resp2 0).1 ∧
          (run_single side levels size resp 0).2 =
            ((levels.map (fun p => (⟨side, p, size / p⟩ : OrderInstr)))).enum.filter
              (fun p => resp p.1) := by
  constructor
  · have h1 := run_neutral_spec size resp levels 0
    have h2 := run_neutral_spec size resp2 levels 0
    refine ⟨h1.1, ?_, ?_⟩
    · rw [h1.1, h2.1]
    · rw [h1.2]
      rfl
  · intro side
    have h1 := run_single_spec side size resp levels 0
    have h2 := run_single_spec side size resp2 levels 0
    refine ⟨h1.1, ?_, ?_⟩
    · rw [h1.1, h2.1]
    · rw [h1.2]
      rfl

/-- C4 (amended): membership in the validated (pre-fallback) support and
resistance lists is equivalent to the keep rule with tests and respects
counted over the candles after the first one — the code's loops run over
range(1, len(df)), so the first candle is never counted as a test. -/
theorem claim_C4_validator_rule (df : List Candle)
    (supports resistances : List ℚ) (L : ℚ) :
    (L ∈ validate_stage_supports df supports ↔
        L ∈ supports ∧ amended_keep_support df L) ∧
      (L ∈ validate_stage_resistances df resistances ↔
        L ∈ resistances ∧ amended_keep_resistance df L) := by
  constructor
  · unfold validate_stage_supports
    rw [List.mem_filter, keep_support_iff_amended]
  · unfold validate_stage_resistances
    rw [List.mem_filter, keep_resistance_iff_amended]

/-- Four-candle series separating the claim's counting rule from the
code's: only the first candle's low touches the level 100, and the
level 90 is consistently respected, so no fallback fires. -/
def exDf : List Candle :=
  [⟨70, 101, 100, 100⟩, ⟨70, 91, 90, 75⟩, ⟨70, 91, 90, 75⟩, ⟨70, 91, 90, 75⟩]

theorem exDf_quantile : quantileQ (1 / 10) (exDf.map Candle.low) = 90 := by
  have hmap : exDf.map Candle.low = [100, 90, 90, 90] := by
    simp [exDf]
  have hsort : sortQ [100, 90, 90, 90] = [90, 90, 90, 100] := by
    norm_num [sortQ, List.insertionSort, List.orderedInsert]
  rw [quantileQ, hmap, hsort]
  norm_num

theorem exDf_counts_100 : support_counts exDf 100 = (0, 0) := by
  have hr : List.range' 1 (exDf.length - 1) = [1, 2, 3] := by decide
  unfold support_counts
  rw [hr]
  norm_num [count_step, support_test, support_bounce, exDf, nthC]

theorem exDf_counts_90 : support_counts exDf 90 = (3, 2) := by
  have hr : List.range' 1 (exDf.length - 1) = [1, 2, 3] := by decide
  unfold support_counts
  rw [hr]
  norm_num [count_step, support_test, support_bounce, exDf, nthC]

theorem exDf_keep_100 : keep_support exDf 100 = false := by
  simp only [keep_support, exDf_counts_100, exDf_quantile]
  norm_num

theorem exDf_keep_90 : keep_support exDf 90 = true := by
  simp only [keep_support, exDf_counts_90, exDf_quantile]
  norm_num

/-- C4 counterexample: on exDf the level 100 is tested only at the first
candle; the claim's rule, which counts every candle, keeps it (one test,
one bounce), but the code's loop starts at candle 1, counts no test for
it, finds it at or above the 10th percentile of lows, and drops it —
while keeping 90, so the fallback does not apply and the validator does
not return 100. -/
theorem claim_C4_counterexample :
    claim_keep_support exDf 100 ∧
      (100 : ℚ) ∉ (validate_sr_levels exDf [100, 90] []).1 := by
  constructor
  · have hr : List.range exDf.length = [0, 1, 2, 3] := by decide
    have htests : claim_tests_support exDf 100 = 1 := by
      unfold claim_tests_support
      rw [hr]
      norm_num [support_test, exDf, nthC]
    have hresp : claim_respects_support exDf 100 = 1 := by
      unfold claim_respects_support
      rw [hr]
      norm_num [support_test, support_bounce, exDf, nthC]
    unfold claim_keep_support
    rw [htests, hresp]
    norm_num
  · have hfil : validate_stage_supports exDf [100, 90] = [90] := by
      unfold validate_stage_supports
      rw [List.filter_cons, List.filter_cons, List.filter_nil,
        exDf_keep_100, exDf_keep_90]
      rfl
    unfold validate_sr_levels
    rw [hfil]
    norm_num

end GridBot
